import Mathlib

/-!
Verification development for the Jupiter-Bot repository (Porismic/Jupiter-Bot).

This file gives a shallow embedding, in Lean 4, of the three stateful cores of
`src/main.py`:

* the giveaway lifecycle engine (`GiveawayJoinView.join_giveaway`,
  `end_giveaway`, `check_giveaways`);
* the premium-slot entitlement calculator (`calculate_user_slots`,
  `update_user_slots`);
* the invite attribution tracker (`handle_member_join_invite_tracking`,
  `handle_member_leave_invite_tracking`).

Python dictionaries are modelled as association lists with the dictionary's
insertion-order semantics (assignment to an existing key replaces the value in
place, assignment to a fresh key appends at the end).  `random.sample` is
modelled by an explicit sampler argument; validity of a sampler (it returns
`k` elements drawn without replacement from the pool) is a hypothesis of the
theorems that need it.  A handler whose Python body can raise an exception
that is caught by its surrounding `try`/`except` is modelled as returning the
(partially mutated) state together with an `ok` flag.
-/

namespace JupiterBot

/-! ## Association-list primitives modelling Python `dict` -/

/-- `d.get(k)` / `k in d` on a Python dict modelled as an association list:
the value at the first occurrence of the key, if any. -/
def alookup {α β : Type} [DecidableEq α] (k : α) : List (α × β) → Option β
  | [] => none
  | (a, b) :: t => if a = k then some b else alookup k t

/-- In-place mutation `d[k] = f(d[k])` of a key's value wherever it occurs,
keeping its position. -/
def amodify {α β : Type} [DecidableEq α] (k : α) (f : β → β) :
    List (α × β) → List (α × β)
  | [] => []
  | (a, b) :: t =>
      if a = k then (a, f b) :: amodify k f t else (a, b) :: amodify k f t

/-- `d[k] = v` on a Python dict: replace the value if the key is present
(keeping its position), otherwise append the new binding at the end. -/
def aset {α β : Type} [DecidableEq α] (k : α) (v : β) (l : List (α × β)) :
    List (α × β) :=
  if (alookup k l).isNone then l ++ [(k, v)]
  else amodify k (fun _ => v) l

theorem alookup_append_self {α β : Type} [DecidableEq α] (k : α) (v : β) :
    ∀ l : List (α × β), alookup k l = none →
      alookup k (l ++ [(k, v)]) = some v := by
  intro l
  induction l with
  | nil => intro _; simp [alookup]
  | cons p t ih =>
      obtain ⟨a, b⟩ := p
      intro h
      by_cases hp : a = k
      · simp [alookup, hp] at h
      · simp only [alookup, List.cons_append, hp, if_false] at h ⊢
        exact ih h

theorem alookup_amodify {α β : Type} [DecidableEq α] (k m : α) (f : β → β)
    (l : List (α × β)) :
    alookup m (amodify k f l) =
      if m = k then (alookup k l).map f else alookup m l := by
  induction l with
  | nil => by_cases h : m = k <;> simp [alookup, amodify, h]
  | cons p t ih =>
      obtain ⟨a, b⟩ := p
      by_cases hak : a = k
      · subst hak
        by_cases hma : m = a
        · subst hma
          simp [alookup, amodify, ih]
        · have ham : ¬ a = m := fun h => hma h.symm
          simp [alookup, amodify, hma, ham, ih]
      · by_cases ham : a = m
        · subst ham
          have hmk : ¬ a = k := hak
          simp [alookup, amodify, hak, hmk]
        · simp [alookup, amodify, hak, ham, ih]

theorem alookup_aset_self {α β : Type} [DecidableEq α] (k : α) (v : β)
    (l : List (α × β)) : alookup k (aset k v l) = some v := by
  unfold aset
  cases hv : alookup k l with
  | none =>
      simp only [hv, Option.isNone_none, if_true]
      exact alookup_append_self k v l hv
  | some w =>
      simp only [hv, Option.isNone_some, Bool.false_eq_true, if_false]
      rw [alookup_amodify k k (fun _ => v) l, if_pos rfl, hv]
      rfl

/-! ## Giveaway data model

Mirrors the giveaway dictionaries stored in `giveaways_data`
(`src/main.py`): `status` is one of the strings "active" / "ended",
`winners` is the configured winner count, `participants` maps a user id to
its stored entry weight (the Python value is a dict `{"entries": n}`; only
the `entries` field is ever read, so it is modelled as the bare count), and
`extra_entry_roles` is the ordered list of `{"role_id": r, "entries": n}`
rules. -/

structure Giveaway where
  status : String
  winners : Nat
  participants : List (String × Nat)
  winners_list : List String
  end_time : Nat
  required_roles : List Nat
  bypass_roles : List Nat
  required_level : Nat
  extra_entry_roles : List (Nat × Nat)
  channel_id : Nat
deriving DecidableEq

/-- `calculate_level` (src/main.py:194): `int(math.sqrt(xp / 100))` for
non-negative xp; XP is a non-negative counter, so it is modelled on `Nat`
(⌊√(xp/100)⌋ equals ⌊√⌊xp/100⌋⌋ since squares are integers). -/
def calculate_level (xp : Nat) : Nat := Nat.sqrt (xp / 100)

/-- Result of a press of the join button, as the distinct user-facing
replies of `GiveawayJoinView.join_giveaway` (src/main.py:2568). -/
inductive JoinResult
  | notActive
  | missingRoles
  | levelTooLow
  | joined (entries : Nat)
deriving DecidableEq

/-- `GiveawayJoinView.join_giveaway` (src/main.py:2568-2615).  The Python
handler reads the wall clock nowhere; `now` is passed through to model the
clock available to the handler and is (faithfully) ignored. -/
def joinGiveaway (g : Giveaway) (u : String) (roles : List Nat) (xp : Nat)
    (now : Nat) : JoinResult × Giveaway :=
  if g.status ≠ "active" then (.notActive, g)
  else if g.required_roles ≠ [] ∧ ∀ r ∈ g.required_roles, r ∉ roles then
    (.missingRoles, g)
  else if 0 < g.required_level ∧ calculate_level xp < g.required_level ∧
      (g.bypass_roles = [] ∨ ∀ r ∈ g.bypass_roles, r ∉ roles) then
    (.levelTooLow, g)
  else
    let ps :=
      if (alookup u g.participants).isNone then g.participants ++ [(u, 1)]
      else g.participants
    let ps2 :=
      if g.extra_entry_roles ≠ [] then
        match g.extra_entry_roles.find? (fun rc => decide (rc.1 ∈ roles)) with
        | some rc => aset u rc.2 ps
        | none => ps
      else ps
    (.joined ((alookup u ps2).getD 1), { g with participants := ps2 })

/-- The weighted pool of `end_giveaway` (src/main.py:7648-7650): each
participant id repeated `entries` times, in participant order. -/
def weightedPool (ps : List (String × Nat)) : List String :=
  (ps.map (fun p => List.replicate p.2 p.1)).flatten

/-- The duplicate-removal loop of `end_giveaway` (src/main.py:7656-7661):
keep the first occurrence of each id, in draw order. -/
def dedupFirst : List String → List String → List String
  | [], _ => []
  | x :: xs, seen =>
      if x ∈ seen then dedupFirst xs seen else x :: dedupFirst xs (x :: seen)

/-- A valid model of `random.sample(pool, k)` for `k ≤ len(pool)`: it
returns `k` elements drawn from distinct positions of the pool (in any
order), i.e. a list of length `k` that is a sub-permutation of the pool. -/
def ValidSampler (sample : List String → Nat → List String) : Prop :=
  ∀ pool k, k ≤ pool.length →
    (sample pool k).length = k ∧ List.Subperm (sample pool k) pool

/-- `end_giveaway` (src/main.py:7624-7685), parameterised by the random
sampler and by whether `guild.get_channel` found the announcement channel.
The status is set to "ended" before any other work; with no participants,
or no channel, the function returns without drawing winners. -/
def endGiveaway (sample : List String → Nat → List String) (g : Giveaway)
    (channelFound : Bool) : Giveaway :=
  if g.status ≠ "active" then g
  else
    let g1 := { g with status := "ended" }
    if channelFound = false then g1
    else if g1.participants.isEmpty then g1
    else
      let pool := weightedPool g1.participants
      let winner_count := min g1.winners g1.participants.length
      let winners := sample pool winner_count
      { g1 with winners_list := dedupFirst winners [] }

/-! ## Entitlement calculator

`calculate_user_slots` / `update_user_slots` (src/main.py:199-231).  The
configuration holds two tables: `slot_roles` (legacy, role id →
`{"slots": n}`; only the `slots` field is read) and `auto_slot_roles`
(role id → n).  All slot counts entering the configuration are validated
non-negative by the admin commands (src/main.py:9088-9090), and
`manual_slots` only changes by validated positive additions and removals
capped at the current value (src/main.py:6806-6866), so counts are
modelled on `Nat`. -/

structure SlotConfig where
  slot_roles : List (Nat × Nat)
  auto_slot_roles : List (Nat × Nat)

/-- A `premium_slots[user_id]` record. -/
structure SlotRecord where
  total_slots : Nat
  used_slots : Nat
  manual_slots : Nat
deriving DecidableEq

/-- `calculate_user_slots` (src/main.py:199-213): one pass over the
member's roles adding `slot_roles` grants, then a second pass adding
`auto_slot_roles` grants. -/
def calculate_user_slots (cfg : SlotConfig) (roles : List Nat) : Nat :=
  let t1 := roles.foldl
    (fun acc r => acc + ((alookup r cfg.slot_roles).getD 0)) 0
  roles.foldl (fun acc r => acc + ((alookup r cfg.auto_slot_roles).getD 0)) t1

/-- `update_user_slots` (src/main.py:215-231): recompute the role-derived
slots, set `total_slots = calculated + manual_slots`, and clamp
`used_slots` down to `total_slots`.  `rec?` is the existing
`premium_slots` record of the user, if any (a missing user is initialised
to the all-zero record first). -/
def update_user_slots (cfg : SlotConfig) (roles : List Nat)
    (rec? : Option SlotRecord) : SlotRecord :=
  let rec0 := rec?.getD ⟨0, 0, 0⟩
  let calculated := calculate_user_slots cfg roles
  let total := calculated + rec0.manual_slots
  let used := if rec0.used_slots > total then total else rec0.used_slots
  ⟨total, used, rec0.manual_slots⟩

/-- The per-role grant of the combined slot tables: what the combined
"role slot table" assigns to one role (0 when the role is in neither
table). -/
def combinedSlotLookup (cfg : SlotConfig) (r : Nat) : Nat :=
  ((alookup r cfg.slot_roles).getD 0) + ((alookup r cfg.auto_slot_roles).getD 0)

/-! ## Invite attribution tracker

Models `invite_data` and the handlers
`handle_member_join_invite_tracking` (src/main.py:5031-5132) and
`handle_member_leave_invite_tracking` (src/main.py:5143-5165).

The `invite_data` JSON object holds an `"invites"` cache (code →
`{"uses", "inviter_id", ...}`) and, once created, a `"members"` map.  A
member entry is a plain dict whose keys depend on how it was created, so
it is modelled as a record of optional fields (`none` = key absent).

Python's `str(id)` keying is injective, so ids are kept as `Nat`.

Both handlers run inside `try`/`except Exception` blocks that log and
swallow any exception, so a handler is modelled as total, returning the
state as mutated up to the point of the exception together with an `ok`
flag (`ok = false` means an exception was caught). -/

/-- One entry of the platform's current invite list (`guild.invites()`):
code, use count, and the inviter (absent for e.g. vanity invites). -/
structure InviteSnap where
  code : String
  uses : Nat
  inviter : Option Nat
deriving DecidableEq

/-- One cached entry of `invite_data["invites"]`.  The Python entry also
stores `channel_id` and `created_at`; they are written but never read
back by the tracked handlers, so they are omitted. -/
structure CacheEntry where
  uses : Nat
  inviter_id : Option Nat
deriving DecidableEq

/-- One entry of `invite_data["members"]`: a dict with optional keys.
`recent_invites` holds `(member_id, timestamp)` pairs; the key is only
ever read on records created with it present, so it is modelled as a
plain list. -/
structure MemberRec where
  total_invites : Option Nat
  left_invites : Option Nat
  recent_invites : List (Nat × Nat)
  invited_by : Option Nat
  invite_code : Option String
  join_timestamp : Option Nat
deriving DecidableEq

/-- The empty dict `{}` as a member entry. -/
def emptyRec : MemberRec := ⟨none, none, [], none, none, none⟩

/-- The fresh inviter-stats dict
`{"total_invites": 0, "left_invites": 0, "recent_invites": []}`. -/
def statsInit : MemberRec := ⟨some 0, some 0, [], none, none, none⟩

/-- The invitee dict
`{"invited_by": i, "invite_code": c, "join_timestamp": t}`. -/
def inviteeRec (i : Nat) (c : String) (t : Nat) : MemberRec :=
  ⟨none, none, [], some i, some c, some t⟩

/-- The `invite_data` global: the `"invites"` cache (always created by
`cache_guild_invites` before any member event is processed) and the
`"members"` map, which does not exist until first created by the join
handler (`none` = key absent). -/
structure InviteData where
  invites : List (String × CacheEntry)
  members : Option (List (Nat × MemberRec))
deriving DecidableEq

/-- Result of one handler call: the state as left behind, and whether the
call completed without an exception being caught. -/
structure HResult where
  state : InviteData
  ok : Bool
deriving DecidableEq

/-- `cached_invites.get(invite.code, {}).get("uses", 0)`
(src/main.py:5043). -/
def cachedUses (cache : List (String × CacheEntry)) (code : String) : Nat :=
  ((alookup code cache).map (fun e => e.uses)).getD 0

/-- The invite-scan loop (src/main.py:5042-5047): the first invite in the
snapshot whose use count exceeds the cached count (the loop breaks at the
first hit). -/
def findUsedInvite (cache : List (String × CacheEntry))
    (invs : List InviteSnap) : Option InviteSnap :=
  invs.find? (fun i => decide (cachedUses cache i.code < i.uses))

/-- The `recent_invites` cap (src/main.py:5071-5072): keep only the last
10 entries once the list exceeds 10. -/
def trim10 (l : List (Nat × Nat)) : List (Nat × Nat) :=
  if 10 < l.length then l.drop (l.length - 10) else l

/-- The cache-refresh loop "Cache new invite states"
(src/main.py:5118-5125): every snapshot entry is written into the
`"invites"` cache. -/
def refreshCache (st : InviteData) (invs : List InviteSnap) : InviteData :=
  { st with
    invites := invs.foldl
      (fun acc i => aset i.code ⟨i.uses, i.inviter⟩ acc) st.invites }

/-- `handle_member_join_invite_tracking` (src/main.py:5031-5135).

Control flow of the Python body, with the exceptions it can raise (all
caught by the surrounding `except`):

* no invite shows an increased use count, or the used invite has no
  inviter: skip attribution, refresh the cache, done;
* otherwise write the used invite's `uses` into the cache — a `KeyError`
  if the code is not cached yet (the write indexes the existing entry);
* then `inviter_id` is assigned *only inside* the
  `if "members" not in invite_data` branch, so when the members map
  already exists the subsequent read of `inviter_id` raises
  `UnboundLocalError` and the handler aborts with the single cache-entry
  write as its only effect;
* on the fresh-members path: initialise the inviter's stats, increment
  `total_invites`, append to and trim `recent_invites`, create the
  invitee record unless the member entry already carries a
  `total_invites` key.  *After* these member-stats writes and *before*
  the cache refresh, the same `try` block runs `save_json`
  (src/main.py:5088), `update_member_invite_roles` (src/main.py:5091,
  whose `int(threshold_str)` at src/main.py:4527 can raise) and the
  welcome-channel lookup-and-send (src/main.py:5094-5116); any of these
  can raise, aborting the handler with the member-stats mutations in
  place and the cache refresh never run.  None of them mutates
  `invite_data` (`update_member_invite_roles` only reads it), so the
  `postRaise` argument selects between that caught-after-writes outcome
  and the completing run.  The trailing `save_json` (src/main.py:5127)
  can also raise, but only after the last in-memory mutation: `ok`
  therefore means "the call reached the final cache refresh", not "no
  exception was logged". -/
def handleMemberJoin (st : InviteData) (invs : List InviteSnap)
    (memberId : Nat) (now : Nat) (postRaise : Bool) : HResult :=
  match findUsedInvite st.invites invs with
  | none => ⟨refreshCache st invs, true⟩
  | some inv =>
    match inv.inviter with
    | none => ⟨refreshCache st invs, true⟩
    | some inviterId =>
      if (alookup inv.code st.invites).isNone then ⟨st, false⟩
      else
        let st1 := { st with
          invites :=
            amodify inv.code (fun e => { e with uses := inv.uses }) st.invites }
        match st1.members with
        | some _ => ⟨st1, false⟩
        | none =>
          let ms0 : List (Nat × MemberRec) := []
          let ms1 :=
            if (alookup inviterId ms0).isNone then aset inviterId statsInit ms0
            else ms0
          let ms2 := amodify inviterId
            (fun r => { r with total_invites := some (r.total_invites.getD 0 + 1) })
            ms1
          let ms3 := amodify inviterId
            (fun r => { r with
              recent_invites := trim10 (r.recent_invites ++ [(memberId, now)]) })
            ms2
          let ms4 :=
            if (alookup memberId ms3).isNone then aset memberId emptyRec ms3
            else ms3
          let ms5 :=
            if ((alookup memberId ms4).getD emptyRec).total_invites.isNone then
              aset memberId (inviteeRec inviterId inv.code now) ms4
            else ms4
          let st2 := { st1 with members := some ms5 }
          if postRaise then ⟨st2, false⟩
          else ⟨refreshCache st2 invs, true⟩

/-- `handle_member_leave_invite_tracking` (src/main.py:5143-5165): look
up the leaving member's `invited_by`; if present and the inviter has an
entry in the members map, bump that inviter's `left_invites` (defaulting
a missing key to 0); otherwise change nothing. -/
def handleMemberLeave (st : InviteData) (memberId : Nat) : InviteData :=
  let memberData := (alookup memberId (st.members.getD [])).getD emptyRec
  match memberData.invited_by with
  | none => st
  | some inviterId =>
    if (alookup inviterId (st.members.getD [])).isSome then
      { st with
        members := some (amodify inviterId
          (fun r => { r with left_invites := some (r.left_invites.getD 0 + 1) })
          (st.members.getD [])) }
    else st

/-- One platform membership event routed to the invite tracker; a join
event carries whether the post-attribution section of the handler
raises (see `handleMemberJoin`). -/
inductive Ev
  | join (invs : List InviteSnap) (memberId : Nat) (now : Nat)
      (postRaise : Bool)
  | leave (memberId : Nat)

/-- Dispatch one event to its handler (the `on_member_join` /
`on_member_remove` adapters); a caught exception leaves the state the
handler had built up. -/
def stepEv (st : InviteData) : Ev → InviteData
  | .join invs m now pr => (handleMemberJoin st invs m now pr).state
  | .leave m => handleMemberLeave st m

/-- Run a sequence of membership events. -/
def runEvs (st : InviteData) (evs : List Ev) : InviteData :=
  evs.foldl stepEv st

/-- The three invitee-attribution fields of a member's entry, when all
present. -/
def inviteeFields (st : InviteData) (m : Nat) : Option (Nat × String × Nat) :=
  match st.members with
  | none => none
  | some ms =>
    match alookup m ms with
    | none => none
    | some r =>
      match r.invited_by, r.invite_code, r.join_timestamp with
      | some i, some c, some t => some (i, c, t)
      | _, _, _ => none

/-! ## Helper lemmas for the giveaway engine -/

theorem dedupFirst_nodup_aux :
    ∀ (l seen : List String),
      (dedupFirst l seen).Nodup ∧ ∀ x ∈ dedupFirst l seen, x ∉ seen := by
  intro l
  induction l with
  | nil => intro seen; simp [dedupFirst]
  | cons a t ih =>
      intro seen
      by_cases h : a ∈ seen
      · simpa [dedupFirst, h] using ih seen
      · obtain ⟨hnd, hout⟩ := ih (a :: seen)
        simp only [dedupFirst, h, if_false]
        constructor
        · rw [List.nodup_cons]
          exact ⟨fun ha => (hout a ha) (List.mem_cons_self a seen), hnd⟩
        · intro x hx hxseen
          rcases List.mem_cons.mp hx with rfl | hx'
          · exact h hxseen
          · exact (hout x hx') (List.mem_cons_of_mem a hxseen)

theorem dedupFirst_subset :
    ∀ (l seen : List String), ∀ x ∈ dedupFirst l seen, x ∈ l := by
  intro l
  induction l with
  | nil => intro seen x hx; simp [dedupFirst] at hx
  | cons a t ih =>
      intro seen x hx
      by_cases h : a ∈ seen
      · simp only [dedupFirst, h, if_true] at hx
        exact List.mem_cons_of_mem a (ih seen x hx)
      · simp only [dedupFirst, h, if_false] at hx
        rcases List.mem_cons.mp hx with rfl | hx'
        · exact List.mem_cons_self x t
        · exact List.mem_cons_of_mem a (ih (a :: seen) x hx')

theorem dedupFirst_length_le :
    ∀ (l seen : List String), (dedupFirst l seen).length ≤ l.length := by
  intro l
  induction l with
  | nil => intro seen; simp [dedupFirst]
  | cons a t ih =>
      intro seen
      by_cases h : a ∈ seen
      · simp only [dedupFirst, h, if_true, List.length_cons]
        exact le_trans (ih seen) (Nat.le_succ _)
      · simp only [dedupFirst, h, if_false, List.length_cons]
        exact Nat.succ_le_succ (ih (a :: seen))

theorem weightedPool_length_ge (ps : List (String × Nat))
    (h : ∀ p ∈ ps, 1 ≤ p.2) : ps.length ≤ (weightedPool ps).length := by
  induction ps with
  | nil => simp [weightedPool]
  | cons p t ih =>
      obtain ⟨u, e⟩ := p
      have he : 1 ≤ e := h (u, e) (List.mem_cons_self _ _)
      have ht := ih (fun q hq => h q (List.mem_cons_of_mem _ hq))
      simp only [weightedPool, List.map_cons, List.flatten_cons,
        List.length_append, List.length_replicate, List.length_cons]
        at ht ⊢
      omega

theorem weightedPool_mem (ps : List (String × Nat)) (w : String)
    (h : w ∈ weightedPool ps) : ∃ e, (w, e) ∈ ps := by
  induction ps with
  | nil => simp [weightedPool] at h
  | cons p t ih =>
      obtain ⟨u, e⟩ := p
      simp only [weightedPool, List.map_cons, List.flatten_cons,
        List.mem_append] at h
      rcases h with hrep | ht
      · obtain rfl := List.eq_of_mem_replicate hrep
        exact ⟨e, List.mem_cons_self _ _⟩
      · obtain ⟨e', he'⟩ := ih ht
        exact ⟨e', List.mem_cons_of_mem _ he'⟩

/-- `random.sample` modelled as taking the first `k` pool positions: one
possible draw of sampling without replacement. -/
def takeSampler : List String → Nat → List String := fun pool k => pool.take k

theorem takeSampler_valid : ValidSampler takeSampler := by
  intro pool k hk
  constructor
  · simp [takeSampler, List.length_take, Nat.min_eq_left hk]
  · exact (List.take_sublist k pool).subperm

theorem endGiveaway_status_ended (sample : List String → Nat → List String)
    (g : Giveaway) (c : Bool) (h : g.status = "active") :
    (endGiveaway sample g c).status = "ended" := by
  unfold endGiveaway
  rw [h, if_neg (by decide : ¬ ("active" : String) ≠ "active")]
  dsimp only
  split_ifs <;> rfl

theorem endGiveaway_active_eq (sample : List String → Nat → List String)
    (g : Giveaway) (h : g.status = "active") (hne : g.participants ≠ []) :
    endGiveaway sample g true =
      { g with
        status := "ended",
        winners_list :=
          dedupFirst
            (sample (weightedPool g.participants)
              (min g.winners g.participants.length)) [] } := by
  simp [endGiveaway, h, hne]

/-! ## Claims about the giveaway engine -/

/-- A giveaway used to exhibit a draw with fewer distinct winners than
`min(winnerCount, distinctParticipantCount)`: two distinct participants,
one of weight 2, winner count 2. -/
def gC1x : Giveaway :=
  ⟨"active", 2, [("a", 2), ("b", 1)], [], 100, [], [], 0, [], 0⟩

/-- Claim C1, counterexample.  The pool of `gC1x` is ["a", "a", "b"] and
`k = min(2, 2) = 2`, but the valid draw taking the first two pool
positions yields ["a", "a"], which de-duplicates to the single winner
["a"]: `end` does not continue drawing until `k` distinct winners are
found, so the winners list can be shorter than `k` even with enough
distinct participants. -/
theorem end_exactly_k_counterexample :
    ValidSampler takeSampler ∧
    gC1x.status = "active" ∧
    gC1x.participants ≠ [] ∧
    (gC1x.participants.map Prod.fst).Nodup ∧
    min gC1x.winners gC1x.participants.length = 2 ∧
    (endGiveaway takeSampler gC1x true).winners_list.length = 1 :=
  ⟨takeSampler_valid, rfl, by decide, by decide, by decide, by decide⟩

/-- Claim C1, amended.  For every giveaway with non-empty participants
(each with at least one entry, as the code guarantees) and every valid
draw of `random.sample`, the winners list produced by `end` has no
duplicate user identifier, consists only of participants, and has length
at most `k = min(winnerCount, distinctParticipantCount)` — and is
non-empty when `winnerCount ≥ 1`; length exactly `k` is not guaranteed. -/
theorem end_winners_sound (sample : List String → Nat → List String)
    (g : Giveaway) (hs : ValidSampler sample) (hg : g.status = "active")
    (hne : g.participants ≠ []) (hw : ∀ p ∈ g.participants, 1 ≤ p.2) :
    (endGiveaway sample g true).winners_list.Nodup ∧
    (∀ w ∈ (endGiveaway sample g true).winners_list,
        ∃ e, (w, e) ∈ g.participants) ∧
    (endGiveaway sample g true).winners_list.length
      ≤ min g.winners g.participants.length ∧
    (1 ≤ g.winners → (endGiveaway sample g true).winners_list ≠ []) := by
  have hpool : min g.winners g.participants.length
      ≤ (weightedPool g.participants).length :=
    le_trans (min_le_right _ _) (weightedPool_length_ge g.participants hw)
  obtain ⟨hlen, hsub⟩ :=
    hs (weightedPool g.participants) (min g.winners g.participants.length)
      hpool
  rw [endGiveaway_active_eq sample g hg hne]
  set drawn :=
    sample (weightedPool g.participants)
      (min g.winners g.participants.length) with hdrawn
  refine ⟨(dedupFirst_nodup_aux drawn []).1, ?_, ?_, ?_⟩
  · intro w hwm
    exact weightedPool_mem g.participants w
      (hsub.subset (dedupFirst_subset drawn [] w hwm))
  · exact le_trans (dedupFirst_length_le drawn []) (le_of_eq hlen)
  · intro hwin
    have h1 : 1 ≤ g.participants.length :=
      List.length_pos.mpr hne
    have : 1 ≤ drawn.length := by
      rw [hlen]
      exact le_min hwin h1
    cases hd : drawn with
    | nil => rw [hd] at this; simp at this
    | cons x xs => simp [dedupFirst]

/-- Claim C1 witness: the amended theorem applied to `gC1x` and the
take-first sampler. -/
theorem end_winners_sound_witness :
    (endGiveaway takeSampler gC1x true).winners_list.Nodup ∧
    (∀ w ∈ (endGiveaway takeSampler gC1x true).winners_list,
        ∃ e, (w, e) ∈ gC1x.participants) ∧
    (endGiveaway takeSampler gC1x true).winners_list.length
      ≤ min gC1x.winners gC1x.participants.length ∧
    (1 ≤ gC1x.winners → (endGiveaway takeSampler gC1x true).winners_list ≠ []) :=
  end_winners_sound takeSampler gC1x takeSampler_valid rfl (by decide)
    (by decide)

/-- Claim C2: `end` is idempotent.  Whatever the first call produced
(including the already-ended no-op case), a second call — even with a
different sampler and channel outcome — returns the state unchanged: it
does not re-draw and the winners list is identical. -/
theorem end_idempotent (s1 s2 : List String → Nat → List String)
    (g : Giveaway) (c1 c2 : Bool) :
    endGiveaway s2 (endGiveaway s1 g c1) c2 = endGiveaway s1 g c1 := by
  by_cases h : g.status = "active"
  · have hr := endGiveaway_status_ended s1 g c1 h
    set r := endGiveaway s1 g c1 with hrdef
    unfold endGiveaway
    rw [if_pos (by rw [hr]; decide)]
  · have h1 : endGiveaway s1 g c1 = g := by
      unfold endGiveaway
      rw [if_pos h]
    rw [h1]
    unfold endGiveaway
    rw [if_pos h]

/-- Claim C3: `end` on an active giveaway sets status "ended" (its first
state change), and every subsequent `join`, for any user, role set, XP
and timestamp, fails with the not-active reply and leaves the giveaway
(in particular its participants) unchanged. -/
theorem join_after_end_notActive (sample : List String → Nat → List String)
    (g : Giveaway) (c : Bool) (u : String) (roles : List Nat) (xp now : Nat)
    (h : g.status = "active") :
    (endGiveaway sample g c).status = "ended" ∧
    joinGiveaway (endGiveaway sample g c) u roles xp now
      = (.notActive, endGiveaway sample g c) := by
  have hr := endGiveaway_status_ended sample g c h
  exact ⟨hr, by simp [joinGiveaway, hr]⟩

/-- Giveaway used in concrete join scenarios: active, one winner, ends at
time 100, no entry requirements. -/
def gJoin : Giveaway := ⟨"active", 1, [], [], 100, [], [], 0, [], 0⟩

/-- Claim C3 witness. -/
theorem join_after_end_notActive_witness :
    (endGiveaway takeSampler gJoin true).status = "ended" ∧
    joinGiveaway (endGiveaway takeSampler gJoin true) "u1" [] 0 200
      = (.notActive, endGiveaway takeSampler gJoin true) :=
  join_after_end_notActive takeSampler gJoin true "u1" [] 0 200 rfl

/-- Claim C4, counterexample.  `gJoin` is still marked active and its
`end_time` (100) has passed at time 200, yet the join handler accepts the
join and records the participant: the handler never consults the clock,
so there is no `now >= endTime` rejection. -/
theorem join_ignores_endTime_counterexample :
    gJoin.status = "active" ∧
    gJoin.end_time ≤ 200 ∧
    (joinGiveaway gJoin "u1" [] 0 200).1 = .joined 1 ∧
    (joinGiveaway gJoin "u1" [] 0 200).1 ≠ .notActive ∧
    (joinGiveaway gJoin "u1" [] 0 200).2.participants = [("u1", 1)] := by
  refine ⟨rfl, by decide, by decide, by decide, by decide⟩

/-- Claim C4, amended: `join` fails with the not-active reply exactly
when the status is not "active"; the current time is never consulted —
the result of a join is identical for every timestamp, so a join on a
still-active giveaway whose end time has passed is accepted (the
time-based cutoff happens only when the minute sweep ends the
giveaway). -/
theorem join_notActive_iff_status (g : Giveaway) (u : String)
    (roles : List Nat) (xp now now' : Nat) :
    ((joinGiveaway g u roles xp now).1 = .notActive ↔ g.status ≠ "active") ∧
    joinGiveaway g u roles xp now = joinGiveaway g u roles xp now' := by
  constructor
  · unfold joinGiveaway
    split_ifs with h1 h2 h3 <;> simp [h1]
  · rfl

/-- Giveaway with two extra-entry rules, in list order role 1 → 2 entries
then role 2 → 5 entries. -/
def gC5x : Giveaway := ⟨"active", 1, [], [], 100, [], [], 0, [(1, 2), (2, 5)], 0⟩

/-- Giveaway where user "u" is already stored with weight 7 and the only
rule (role 1 → 2 entries) does not match a re-joining user holding role 3
only. -/
def gC5r : Giveaway :=
  ⟨"active", 1, [("u", 7)], [], 100, [], [], 0, [(1, 2)], 0⟩

/-- Claim C5, counterexample.  (1) A user holding both rule roles of
`gC5x` is stored with weight 2 — the first rule in list order — although
the highest matching rule value is 5.  (2) A user re-joining `gC5r` while
matching no rule keeps the previously stored weight 7 instead of having
it recomputed to the default 1. -/
theorem join_weight_counterexample :
    (joinGiveaway gC5x "u" [1, 2] 0 0).1 = .joined 2 ∧
    (joinGiveaway gC5x "u" [1, 2] 0 0).1 ≠ .joined 5 ∧
    ((gC5x.extra_entry_roles.filter
        (fun rc => decide (rc.1 ∈ ([1, 2] : List Nat)))).map Prod.snd).max?
      = some 5 ∧
    (joinGiveaway gC5r "u" [3] 0 0).1 = .joined 7 ∧
    (joinGiveaway gC5r "u" [3] 0 0).1 ≠ .joined 1 ∧
    (joinGiveaway gC5r "u" [3] 0 0).2.participants = [("u", 7)] := by
  refine ⟨by decide, by decide, by decide, by decide, by decide, by decide⟩

/-- The participants map after a successful join: insert the user with
weight 1 if absent, then overwrite with the first matching extra-entry
rule's value, if any (the update code of src/main.py:2599-2611). -/
def joinPs (g : Giveaway) (u : String) (roles : List Nat) :
    List (String × Nat) :=
  let ps :=
    if (alookup u g.participants).isNone then g.participants ++ [(u, 1)]
    else g.participants
  if g.extra_entry_roles ≠ [] then
    match g.extra_entry_roles.find? (fun rc => decide (rc.1 ∈ roles)) with
    | some rc => aset u rc.2 ps
    | none => ps
  else ps

/-- The weight reported back to the user after a successful join. -/
def joinWeight (g : Giveaway) (u : String) (roles : List Nat) : Nat :=
  (alookup u (joinPs g u roles)).getD 1

theorem alookup_upsert_init (u : String) (l : List (String × Nat)) :
    alookup u (if (alookup u l).isNone then l ++ [(u, 1)] else l)
      = some ((alookup u l).getD 1) := by
  cases hlu : alookup u l with
  | none => simpa [hlu] using alookup_append_self u 1 l hlu
  | some e => simp [hlu]

theorem joinGiveaway_success_eq (g : Giveaway) (u : String)
    (roles : List Nat) (xp now : Nat)
    (h1 : g.status = "active")
    (h2 : ¬(g.required_roles ≠ [] ∧ ∀ r ∈ g.required_roles, r ∉ roles))
    (h3 : ¬(0 < g.required_level ∧ calculate_level xp < g.required_level ∧
        (g.bypass_roles = [] ∨ ∀ r ∈ g.bypass_roles, r ∉ roles))) :
    joinGiveaway g u roles xp now =
      (.joined (joinWeight g u roles), { g with participants := joinPs g u roles }) := by
  unfold joinGiveaway
  rw [if_neg (by simp [h1]), if_neg h2, if_neg h3]
  rfl

theorem joinPs_lookup (g : Giveaway) (u : String) (roles : List Nat) :
    alookup u (joinPs g u roles) =
      some (match g.extra_entry_roles.find? (fun rc => decide (rc.1 ∈ roles)) with
            | some rc => rc.2
            | none => (alookup u g.participants).getD 1) := by
  unfold joinPs
  by_cases hE : g.extra_entry_roles ≠ []
  · rw [if_pos hE]
    cases hfind :
        g.extra_entry_roles.find? (fun rc => decide (rc.1 ∈ roles)) with
    | some rc => exact alookup_aset_self u rc.2 _
    | none => exact alookup_upsert_init u g.participants
  · rw [if_neg hE]
    have hEe : g.extra_entry_roles = [] := not_not.mp hE
    rw [hEe]
    simp only [List.find?_nil]
    exact alookup_upsert_init u g.participants

/-- Claim C5, amended.  On a successful join the stored weight is the
value of the *first* rule in `extra_entry_roles` list order whose role
the user holds; when no rule matches it is the previously stored weight
if the user had one (a re-join keeps it) and the default 1 otherwise (a
first join initialises it to 1); the weight is upserted into the
participants map. -/
theorem join_weight_first_match (g : Giveaway) (u : String)
    (roles : List Nat) (xp now w : Nat) (g' : Giveaway)
    (h : joinGiveaway g u roles xp now = (.joined w, g')) :
    w = (match g.extra_entry_roles.find? (fun rc => decide (rc.1 ∈ roles)) with
         | some rc => rc.2
         | none => (alookup u g.participants).getD 1) ∧
    alookup u g'.participants = some w := by
  have hmatch : joinWeight g u roles =
      (match g.extra_entry_roles.find? (fun rc => decide (rc.1 ∈ roles)) with
       | some rc => rc.2
       | none => (alookup u g.participants).getD 1) := by
    unfold joinWeight
    rw [joinPs_lookup]
    rfl
  by_cases h1 : g.status = "active"
  case neg =>
    unfold joinGiveaway at h
    rw [if_pos (by simpa using h1)] at h
    exact absurd (congrArg Prod.fst h) (by simp)
  by_cases h2 : g.required_roles ≠ [] ∧ ∀ r ∈ g.required_roles, r ∉ roles
  case pos =>
    unfold joinGiveaway at h
    rw [if_neg (by simp [h1]), if_pos h2] at h
    exact absurd (congrArg Prod.fst h) (by simp)
  by_cases h3 : 0 < g.required_level ∧ calculate_level xp < g.required_level ∧
      (g.bypass_roles = [] ∨ ∀ r ∈ g.bypass_roles, r ∉ roles)
  case pos =>
    unfold joinGiveaway at h
    rw [if_neg (by simp [h1]), if_neg h2, if_pos h3] at h
    exact absurd (congrArg Prod.fst h) (by simp)
  rw [joinGiveaway_success_eq g u roles xp now h1 h2 h3] at h
  have hw := congrArg Prod.fst h
  have hg := congrArg Prod.snd h
  simp only at hw hg
  rw [JoinResult.joined.injEq] at hw
  constructor
  · rw [← hw, hmatch]
  · rw [← hg]
    simp only
    rw [joinPs_lookup, ← hmatch, hw]

/-- Claim C5 witness: the re-join-without-match case of the amended
theorem at `gC5r`. -/
theorem join_weight_first_match_witness :
    (7 : Nat) =
      (match gC5r.extra_entry_roles.find?
          (fun rc => decide (rc.1 ∈ ([3] : List Nat))) with
       | some rc => rc.2
       | none => (alookup "u" gC5r.participants).getD 1) ∧
    alookup "u" gC5r.participants = some 7 :=
  join_weight_first_match gC5r "u" [3] 0 0 7 gC5r (by decide)

/-! ## Claims about the entitlement calculator -/

theorem foldl_add_lookup (f : Nat → Nat) (l : List Nat) (init : Nat) :
    l.foldl (fun acc r => acc + f r) init = init + (l.map f).sum := by
  induction l generalizing init with
  | nil => simp
  | cons a t ih =>
      simp only [List.foldl_cons, List.map_cons, List.sum_cons, ih]
      omega

theorem sum_map_add (f g : Nat → Nat) (l : List Nat) :
    (l.map (fun r => f r + g r)).sum = (l.map f).sum + (l.map g).sum := by
  induction l with
  | nil => rfl
  | cons a t ih =>
      simp only [List.map_cons, List.sum_cons, ih]
      omega

/-- Claim C6: slot recomputation is a total function; the role-derived
slots equal the sum, over the roles the user holds, of the combined slot
table's grants (in particular 0 for an empty role set); the new total is
role-derived plus manual; and the clamped `used_slots` is
`min(old used, new total)` — hence never exceeds the total and, being a
count, is never negative. -/
theorem slots_recompute_correct (cfg : SlotConfig) (roles : List Nat)
    (rec? : Option SlotRecord) :
    calculate_user_slots cfg roles = (roles.map (combinedSlotLookup cfg)).sum ∧
    calculate_user_slots cfg [] = 0 ∧
    (update_user_slots cfg roles rec?).total_slots
      = calculate_user_slots cfg roles
        + (rec?.getD ⟨0, 0, 0⟩).manual_slots ∧
    (update_user_slots cfg roles rec?).used_slots
      = min (rec?.getD ⟨0, 0, 0⟩).used_slots
          (update_user_slots cfg roles rec?).total_slots ∧
    (update_user_slots cfg roles rec?).used_slots
      ≤ (update_user_slots cfg roles rec?).total_slots := by
  refine ⟨?_, rfl, rfl, ?_, ?_⟩
  · unfold calculate_user_slots combinedSlotLookup
    rw [foldl_add_lookup, foldl_add_lookup, sum_map_add]
    omega
  · simp only [update_user_slots]
    split_ifs <;> omega
  · simp only [update_user_slots]
    split_ifs <;> omega

/-! ## Helper lemmas for the invite tracker -/

theorem alookup_append_ne {α β : Type} [DecidableEq α] (k m : α) (v : β)
    (hne : ¬ m = k) : ∀ l : List (α × β),
      alookup m (l ++ [(k, v)]) = alookup m l := by
  have hkm : ¬ k = m := fun h => hne h.symm
  intro l
  induction l with
  | nil => simp [alookup, hkm]
  | cons p t ih =>
      obtain ⟨a, b⟩ := p
      by_cases hp : a = m
      · simp [alookup, hp]
      · simp only [alookup, List.cons_append, hp, if_false]
        exact ih

theorem alookup_aset_ne {α β : Type} [DecidableEq α] (k m : α) (v : β)
    (l : List (α × β)) (hne : ¬ m = k) :
    alookup m (aset k v l) = alookup m l := by
  unfold aset
  split_ifs
  · exact alookup_append_ne k m v hne l
  · exact (alookup_amodify k m (fun _ => v) l).trans (if_neg hne)

/-- The members map the join handler builds on the fresh-`"members"` path
that attributes invite `code` to inviter `i` for new member `m`:
the inviter's initialised-and-bumped stats record, plus — unless the
member *is* the inviter — the member's invitee record. -/
def msFresh (i m now : Nat) (code : String) : List (Nat × MemberRec) :=
  if m = i then [(i, ⟨some 1, some 0, [(m, now)], none, none, none⟩)]
  else [(i, ⟨some 1, some 0, [(m, now)], none, none, none⟩),
        (m, inviteeRec i code now)]

theorem handleMemberJoin_fresh (st : InviteData) (invs : List InviteSnap)
    (m now : Nat) (pr : Bool) (inv : InviteSnap) (i : Nat)
    (hm : st.members = none)
    (hf : findUsedInvite st.invites invs = some inv)
    (hi : inv.inviter = some i)
    (hc : (alookup inv.code st.invites).isNone = false) :
    handleMemberJoin st invs m now pr =
      (if pr then
        ⟨{ invites := amodify inv.code (fun e => { e with uses := inv.uses })
              st.invites,
           members := some (msFresh i m now inv.code) }, false⟩
      else
        ⟨refreshCache
          { invites := amodify inv.code (fun e => { e with uses := inv.uses })
              st.invites,
            members := some (msFresh i m now inv.code) } invs, true⟩) := by
  unfold handleMemberJoin
  simp only [hf, hi, hc, Bool.false_eq_true, if_false, hm]
  unfold msFresh
  by_cases hmi : m = i
  · subst hmi
    simp [aset, amodify, alookup, statsInit, emptyRec, inviteeRec, trim10]
  · have him : ¬ i = m := fun h => hmi h.symm
    simp [aset, amodify, alookup, statsInit, emptyRec, inviteeRec, trim10,
      hmi, him]

theorem handleMemberJoin_members_stable (st : InviteData)
    (invs : List InviteSnap) (m now : Nat) (pr : Bool)
    (ms : List (Nat × MemberRec)) (hms : st.members = some ms) :
    (handleMemberJoin st invs m now pr).state.members = some ms := by
  unfold handleMemberJoin
  cases hf : findUsedInvite st.invites invs with
  | none => simp only [hf]; simpa [refreshCache] using hms
  | some inv =>
      cases hi : inv.inviter with
      | none => simp only [hf, hi]; simpa [refreshCache] using hms
      | some i =>
          by_cases hc : (alookup inv.code st.invites).isNone
          · simp only [hf, hi, hc, if_true]
            exact hms
          · simp only [hf, hi, hc, Bool.false_eq_true, if_false, hms]

theorem handleMemberLeave_inviteeFields (st : InviteData) (x m : Nat) :
    inviteeFields (handleMemberLeave st x) m = inviteeFields st m := by
  cases hm : st.members with
  | none =>
      unfold handleMemberLeave
      rw [hm]
      simp [alookup, emptyRec]
  | some ms =>
      unfold handleMemberLeave
      rw [hm]
      simp only [Option.getD_some]
      cases hd : ((alookup x ms).getD emptyRec).invited_by with
      | none => rfl
      | some i =>
          dsimp only
          by_cases hs : (alookup i ms).isSome
          · rw [if_pos hs]
            unfold inviteeFields
            rw [hm]
            simp only
            rw [alookup_amodify i m
              (fun r => { r with left_invites := some (r.left_invites.getD 0 + 1) })
              ms]
            by_cases hmi : m = i
            · rw [if_pos hmi]
              cases hlm : alookup i ms with
              | none => rw [hmi, hlm]; rfl
              | some r => rw [hmi, hlm]; rfl
            · rw [if_neg hmi]
          · rw [if_neg hs]

theorem stepEv_inviteeFields (st : InviteData) (e : Ev) (m : Nat)
    (f : Nat × String × Nat) (h : inviteeFields st m = some f) :
    inviteeFields (stepEv st e) m = some f := by
  cases e with
  | leave x =>
      rw [stepEv, handleMemberLeave_inviteeFields]
      exact h
  | join invs x now pr =>
      cases hm : st.members with
      | none =>
          rw [inviteeFields, hm] at h
          exact absurd h (by simp)
      | some ms =>
          have h2 := handleMemberJoin_members_stable st invs x now pr ms hm
          rw [inviteeFields, hm] at h
          rw [stepEv, inviteeFields, h2]
          exact h

/-! ## Claims about the invite tracker -/

/-- Claim C8: invitee attribution fields are write-once.  First part:
a successful attribution on the fresh-members path writes the new
member's `invited_by` / `invite_code` / `join_timestamp` from the used
invite.  Second part: once a member's three fields are recorded, no
sequence of further join or leave events — with any invite-list
snapshots — ever changes them. -/
theorem invitee_fields_write_once :
    (∀ (st : InviteData) (invs : List InviteSnap) (m now : Nat) (pr : Bool)
        (inv : InviteSnap) (i : Nat),
      st.members = none →
      findUsedInvite st.invites invs = some inv →
      inv.inviter = some i →
      (alookup inv.code st.invites).isNone = false →
      i ≠ m →
      inviteeFields (handleMemberJoin st invs m now pr).state m
        = some (i, inv.code, now)) ∧
    (∀ (st : InviteData) (evs : List Ev) (m : Nat) (f : Nat × String × Nat),
      inviteeFields st m = some f → inviteeFields (runEvs st evs) m = some f) := by
  constructor
  · intro st invs m now pr inv i hm hf hi hc hne
    have hmi : ¬ m = i := fun h => hne h.symm
    rw [handleMemberJoin_fresh st invs m now pr inv i hm hf hi hc]
    cases pr
    · simp only [Bool.false_eq_true, if_false]
      unfold inviteeFields refreshCache msFresh
      simp only [hmi, if_false]
      simp [alookup, hne, inviteeRec]
    · simp only [if_true]
      unfold inviteeFields msFresh
      simp only [hmi, if_false]
      simp [alookup, hne, inviteeRec]
  · intro st evs m f h
    induction evs generalizing st with
    | nil => exact h
    | cons e t ih =>
        rw [runEvs, List.foldl_cons]
        exact ih (stepEv st e) (stepEv_inviteeFields st e m f h)

/-- The cached-invites state used in concrete invite scenarios: one known
invite code "inv1" with 0 recorded uses, created by inviter 1; no
members map yet. -/
def stFresh : InviteData := ⟨[("inv1", ⟨0, some 1⟩)], none⟩

/-- A state whose members map records member 2 as invited by 1 via
"inv1" at time 10. -/
def stRecorded : InviteData :=
  ⟨[("inv1", ⟨1, some 1⟩)],
   some [(1, ⟨some 1, some 0, [(2, 10)], none, none, none⟩),
         (2, inviteeRec 1 "inv1" 10)]⟩

/-- Claim C8 witness: both parts applied at concrete states (the
attributing call completes its post-write section, the rejoin event in
the sequence is irrelevant either way). -/
theorem invitee_fields_write_once_witness :
    inviteeFields
        (handleMemberJoin stFresh [⟨"inv1", 1, some 1⟩] 2 10 false).state 2
      = some (1, "inv1", 10) ∧
    inviteeFields (runEvs stRecorded [Ev.leave 2, Ev.join [] 2 11 false]) 2
      = some (1, "inv1", 10) :=
  ⟨invitee_fields_write_once.1 stFresh [⟨"inv1", 1, some 1⟩] 2 10 false
      ⟨"inv1", 1, some 1⟩ 1 rfl (by decide) rfl (by decide) (by decide),
   invitee_fields_write_once.2 stRecorded [Ev.leave 2, Ev.join [] 2 11 false] 2
      (1, "inv1", 10) (by decide)⟩

/-- The state and snapshot of the C7 counterexample: both cached invites
have 0 recorded uses; in the snapshot, "c1" (inviter 10) increased by 1
and "c2" (inviter 20) increased by 5. -/
def stC7 : InviteData :=
  ⟨[("c1", ⟨0, some 10⟩), ("c2", ⟨0, some 20⟩)], none⟩

/-- The invite-list snapshot of the C7 counterexample. -/
def invsC7 : List InviteSnap := [⟨"c1", 1, some 10⟩, ⟨"c2", 5, some 20⟩]

/-- Claim C7, counterexample.  Two invites show a use-count increase;
the single largest positive delta belongs to "c2" (delta 5, inviter 20),
yet the handler attributes the join to "c1" — the *first* increased
invite in snapshot order (delta 1, inviter 10): inviter 10's
`total_invites` becomes 1 and inviter 20 gets no entry at all, so
attribution between simultaneously-increased invites is decided by list
position, not by largest delta, and is not degraded to un-attributed. -/
theorem attribution_largest_delta_counterexample :
    invsC7.get? 0 = some ⟨"c1", 1, some 10⟩ ∧
    cachedUses stC7.invites "c1" = 0 ∧
    cachedUses stC7.invites "c2" = 0 ∧
    (1 : Nat) - cachedUses stC7.invites "c1"
      < (5 : Nat) - cachedUses stC7.invites "c2" ∧
    ((alookup 10
        (((handleMemberJoin stC7 invsC7 2 0 false).state).members.getD [])).getD
      emptyRec).total_invites = some 1 ∧
    alookup 20 (((handleMemberJoin stC7 invsC7 2 0 false).state).members.getD [])
      = none := by
  refine ⟨rfl, rfl, rfl, by decide, by decide, by decide⟩

/-- Claim C7, amended.  The join handler catches every exception rather
than propagating one (it is modelled as a total function).  When no
invite shows a use-count increase, the join is un-attributed — member
stats are untouched and the call goes on to the cache refresh.  When
some invite has increased, the *first* such invite in snapshot order is
the one attributed: on the fresh members-map path its inviter is
credited with `total_invites = 1`, whether or not the post-attribution
section (save / role update / welcome message) subsequently raises.  No
largest-delta selection or un-attributed degradation of ambiguous
multi-increase snapshots takes place. -/
theorem attribution_first_increase (st : InviteData)
    (invs : List InviteSnap) (m now : Nat) (pr : Bool) :
    (findUsedInvite st.invites invs = none →
      (handleMemberJoin st invs m now pr).state.members = st.members ∧
      (handleMemberJoin st invs m now pr).ok = true) ∧
    (∀ (inv : InviteSnap) (i : Nat),
      findUsedInvite st.invites invs = some inv →
      inv.inviter = some i →
      st.members = none →
      (alookup inv.code st.invites).isNone = false →
      ((alookup i
          (((handleMemberJoin st invs m now pr).state).members.getD [])).getD
        emptyRec).total_invites = some 1) := by
  refine ⟨?_, ?_⟩
  · intro hf
    unfold handleMemberJoin
    simp only [hf]
    constructor <;> trivial
  · intro inv i hf hi hm hc
    rw [handleMemberJoin_fresh st invs m now pr inv i hm hf hi hc]
    cases pr
    · simp only [Bool.false_eq_true, if_false]
      unfold refreshCache msFresh
      by_cases hmi : m = i
      · simp [hmi, alookup]
      · simp [hmi, alookup]
    · simp only [if_true]
      unfold msFresh
      by_cases hmi : m = i
      · simp [hmi, alookup]
      · simp [hmi, alookup]

/-- Claim C7 witness: the no-increase case at the recorded state (the
snapshot equals the cache, so no delta), and the attributed case at the
counterexample state. -/
theorem attribution_first_increase_witness :
    ((handleMemberJoin stRecorded [⟨"inv1", 1, some 1⟩] 3 0 false).state.members
        = stRecorded.members ∧
      (handleMemberJoin stRecorded [⟨"inv1", 1, some 1⟩] 3 0 false).ok = true) ∧
    ((alookup 10
        (((handleMemberJoin stC7 invsC7 2 0 false).state).members.getD [])).getD
      emptyRec).total_invites = some 1 :=
  ⟨(attribution_first_increase stRecorded [⟨"inv1", 1, some 1⟩] 3 0 false).1
      (by decide),
   (attribution_first_increase stC7 invsC7 2 0 false).2 ⟨"c1", 1, some 10⟩ 10
      (by decide) rfl rfl (by decide)⟩

/-- The C9 scenario: member 2 joins through inviter 1's invite "inv1",
leaves, rejoins (the rejoin attribution aborts on the unbound
`inviter_id`, so `total_invites` is not incremented), and leaves again
(incrementing `left_invites` a second time, since the invitee record
survived the rejoin). -/
def stC9 : InviteData := ⟨[("inv1", ⟨0, some 1⟩)], none⟩

/-- The event sequence of the C9 scenario (the attributing first join
completes its post-write section; the rejoin aborts earlier anyway). -/
def evsC9 : List Ev :=
  [.join [⟨"inv1", 1, some 1⟩] 2 10 false, .leave 2,
   .join [⟨"inv1", 2, some 1⟩] 2 20 false, .leave 2]

/-- Claim C9: after the join / leave / rejoin / leave sequence `evsC9`,
inviter 1 has `total_invites = 1` but `left_invites = 2`: the claimed
invariant `currentInvites = totalInvites - leftInvites ≥ 0` fails, since
`leftInvites` exceeds `totalInvites` (current would be -1).  The rejoin
attribution aborts on the unbound `inviter_id` before re-incrementing
`total_invites`, while the leave handler happily re-increments
`left_invites`. -/
theorem leave_rejoin_left_exceeds_total :
    ((alookup 1 ((runEvs stC9 evsC9).members.getD [])).getD
        emptyRec).total_invites = some 1 ∧
    ((alookup 1 ((runEvs stC9 evsC9).members.getD [])).getD
        emptyRec).left_invites = some 2 ∧
    ((alookup 1 ((runEvs stC9 evsC9).members.getD [])).getD
        emptyRec).total_invites.getD 0
      < ((alookup 1 ((runEvs stC9 evsC9).members.getD [])).getD
        emptyRec).left_invites.getD 0 := by
  refine ⟨by decide, by decide, by decide⟩

/-- Claim C10: on any attributed join (the first snapshot invite with an
increased use count exists, has an inviter, and its code is cached)
arriving while the `"members"` map already exists, the handler aborts
(the caught unbound-`inviter_id` error): the call reports failure, the
members map is exactly as before — no `total_invites` increment, no
invitee record write — and the only cache change is the single
`uses` write for the used code; every other cached code is untouched
(the final cache-refresh loop never runs). -/
theorem join_handler_unbound_inviter_abort (st : InviteData)
    (invs : List InviteSnap) (m now : Nat) (pr : Bool) (inv : InviteSnap)
    (i : Nat) (ms : List (Nat × MemberRec))
    (hm : st.members = some ms)
    (hf : findUsedInvite st.invites invs = some inv)
    (hi : inv.inviter = some i)
    (hc : (alookup inv.code st.invites).isNone = false) :
    (handleMemberJoin st invs m now pr).ok = false ∧
    (handleMemberJoin st invs m now pr).state.members = some ms ∧
    (handleMemberJoin st invs m now pr).state.invites
      = amodify inv.code (fun e => { e with uses := inv.uses }) st.invites ∧
    ∀ c : String, ¬ c = inv.code →
      alookup c (handleMemberJoin st invs m now pr).state.invites
        = alookup c st.invites := by
  have hres : handleMemberJoin st invs m now pr =
      ⟨⟨amodify inv.code (fun e => { e with uses := inv.uses }) st.invites,
        some ms⟩, false⟩ := by
    unfold handleMemberJoin
    simp only [hf, hi, hc, Bool.false_eq_true, if_false, hm]
  rw [hres]
  refine ⟨rfl, rfl, rfl, ?_⟩
  intro c hcne
  exact (alookup_amodify inv.code c
    (fun e => { e with uses := inv.uses }) st.invites).trans (if_neg hcne)

/-- Claim C10 witness: a rejoin of member 2 at the recorded state, where
the members map exists. -/
theorem join_handler_unbound_inviter_abort_witness :
    (handleMemberJoin stRecorded [⟨"inv1", 2, some 1⟩] 2 20 false).ok = false ∧
    (handleMemberJoin stRecorded [⟨"inv1", 2, some 1⟩] 2 20 false).state.members
      = some [(1, ⟨some 1, some 0, [(2, 10)], none, none, none⟩),
              (2, inviteeRec 1 "inv1" 10)] ∧
    (handleMemberJoin stRecorded [⟨"inv1", 2, some 1⟩] 2 20 false).state.invites
      = [("inv1", ⟨2, some 1⟩)] := by
  have h := join_handler_unbound_inviter_abort stRecorded
    [⟨"inv1", 2, some 1⟩] 2 20 false ⟨"inv1", 2, some 1⟩ 1
    [(1, ⟨some 1, some 0, [(2, 10)], none, none, none⟩),
     (2, inviteeRec 1 "inv1" 10)]
    rfl (by decide) rfl (by decide)
  exact ⟨h.1, h.2.1, h.2.2.1.trans (by decide)⟩

end JupiterBot
